import Mathlib

/-!
Shallow embedding of the mcp-pinecone tool layer
(`src/mcp_pinecone/tools.py` and `src/mcp_pinecone/server.py`).

The Pinecone client (`pinecone.py`) and the chunker (`chunking.py`) are not
part of the sources; they are treated as abstract collaborators: each tool is
parameterised over a record of client operations returning `Except String α`
(a raised exception is modelled as `.error msg`, caught by the tool's
`try/except` wrapper).  Where a tool makes observable external calls that a
claim talks about (the store query, embedding calls, the upsert, skip
warnings), the embedding additionally returns a trace of events.

Floating-point scores are kept as their already-rendered 3-decimal strings
(`score3`); JSON serialisation performed by `json.dumps` on opaque payloads is
kept as an already-serialised string.  No claim inspects either.
-/

namespace MCPPinecone

/-- Python metadata values as they occur in this code base: strings, ints,
booleans, and lists of strings (tags).  `pyStr` is Python's `str()` rendering
used by the f-string formatters (list rendering follows Python's
`str(list_of_str)`; repr escaping of quotes inside elements is not modelled —
no claim evaluates it). -/
inductive MetaValue where
  | s (v : String)
  | i (v : Int)
  | b (v : Bool)
  | strList (vs : List String)
deriving DecidableEq

def MetaValue.pyStr : MetaValue → String
  | .s v => v
  | .i v => toString v
  | .b v => if v then "True" else "False"
  | .strList vs =>
      "[" ++ String.intercalate ", " (vs.map (fun x => "'" ++ x ++ "'")) ++ "]"

/-- A Python `dict` of metadata, in insertion order (dict iteration order). -/
abbrev Metadata := List (String × MetaValue)

def metaLookup (md : Metadata) (k : String) : Option MetaValue :=
  (md.find? (fun kv => kv.1 == k)).map (fun kv => kv.2)

def metaContains (md : Metadata) (k : String) : Bool :=
  md.any (fun kv => kv.1 == k)

/-- A Python `Dict[str, str]` (the `date_range` argument). -/
abbrev StrDict := List (String × String)

def dictContains (d : StrDict) (k : String) : Bool :=
  d.any (fun kv => kv.1 == k)

/-- `d[k]`; only evaluated under a `k in d` guard in the source. -/
def dictGet (d : StrDict) (k : String) : String :=
  ((d.find? (fun kv => kv.1 == k)).map (fun kv => kv.2)).getD ""

/-- The `{"type": "text", "text": ...}` dictionaries every tool returns. -/
structure ToolResult where
  type : String
  text : String
deriving DecidableEq

/-! ## Filter construction (`semantic_search_tool`, tools.py lines 39-49) -/

/-- The three condition shapes the tool ever places in the `filters` dict:
`filters["category"] = category`, `filters["tags"] = {"$in": tags}`,
`filters["date"] = {"$gte": start, "$lte": end}`. -/
inductive FilterCond where
  | eq (v : String)
  | inList (vs : List String)
  | range (gte lte : String)
deriving DecidableEq

/-- The `filters` dict, in insertion order. -/
abbrev Filters := List (String × FilterCond)

/-- tools.py lines 39-49.  Python truthiness: `if category:` is false for
`None` and for `""`; `if tags:` is false for `None` and `[]`; `if date_range
and "start" in date_range and "end" in date_range` requires a truthy
(non-empty) dict holding both keys. -/
def buildFilters (category : Option String) (tags : Option (List String))
    (dateRange : Option StrDict) : Filters :=
  let fs : Filters := []
  let fs := match category with
    | some c => if c = "" then fs else fs ++ [("category", FilterCond.eq c)]
    | none => fs
  let fs := match tags with
    | some ts => if ts = [] then fs else fs ++ [("tags", FilterCond.inList ts)]
    | none => fs
  match dateRange with
  | some d =>
      if d ≠ [] ∧ dictContains d "start" ∧ dictContains d "end" then
        fs ++ [("date", FilterCond.range (dictGet d "start") (dictGet d "end"))]
      else fs
  | none => fs

/-! ## `semantic_search_tool` (tools.py lines 26-72) -/

/-- One match of the store's query response (`results["matches"]` element).
The similarity score is a float; since no claim computes with it, it is kept
as its 3-decimal rendering `score3` (what `f"{match['score']:.3f}"` prints). -/
structure SearchMatch where
  id : String
  score3 : String
  metadata : Metadata
deriving DecidableEq

/-- The store's query response; `matchList` is `results.get("matches", [])`
(named `matches` in the source; that word is reserved in Lean). -/
structure QueryResponse where
  matchList : List SearchMatch
deriving DecidableEq

/-- The abstract Pinecone client as seen by `semantic_search_tool`
(`pinecone_client.search_records`); a raised exception is `.error msg`. -/
structure SearchClient where
  search_records : String → Int → Filters → Bool → Option String →
    Except String QueryResponse

/-- Observable external calls of a `semantic_search_tool` run. -/
inductive SearchEvent where
  | searchCall (query : String) (topK : Int) (filter : Filters)
      (includeMetadata : Bool) (ns : Option String)
deriving DecidableEq

/-- `metadata.get('text', '').strip()`.  A non-string value under `"text"`
would raise in Python (caught by the tool's handler); no claim exercises that
path, and it is rendered here as the empty string. -/
def matchText (md : Metadata) : String :=
  match metaLookup md "text" with
  | some (MetaValue.s v) => v.trim
  | _ => ""

/-- The per-match block of the result formatter (tools.py lines 63-67),
numbered from `i`. -/
def formatMatchesFrom (i : Nat) : List SearchMatch → String
  | [] => ""
  | m :: rest =>
      "Result " ++ toString i ++ " | Similarity: " ++ m.score3 ++
        " | Document ID: " ++ m.id ++ "\n" ++
      matchText m.metadata ++ "\n" ++
      "----------" ++ "\n\n" ++
      formatMatchesFrom (i + 1) rest

/-- tools.py lines 27-72.  Returns the tool's result dict together with the
trace of client calls made. -/
def semantic_search_tool (client : SearchClient) (query : String)
    (topK : Int := 10) (ns : Option String := none)
    (category : Option String := none) (tags : Option (List String) := none)
    (dateRange : Option StrDict := none) : ToolResult × List SearchEvent :=
  let filters := buildFilters category tags dateRange
  let ev := SearchEvent.searchCall query topK filters true ns
  match client.search_records query topK filters true ns with
  | Except.error e => (⟨"text", "Error: " ++ e⟩, [ev])
  | Except.ok resp =>
      (⟨"text", "Retrieved Contexts:\n\n" ++ formatMatchesFrom 1 resp.matchList⟩,
       [ev])

/-! ## `read_document_tool` (tools.py lines 85-117) -/

/-- A fetched vector as `read_document_tool` uses it: an object with a
`metadata` attribute. -/
structure FetchedVector where
  metadata : Metadata
deriving DecidableEq

/-- The fetch response as `read_document_tool` reads it: `record.vectors` is a
dict id → vector. -/
structure FetchResponse where
  vectors : List (String × FetchedVector)
deriving DecidableEq

structure ReadClient where
  fetch_records : List String → Option String → Except String FetchResponse

/-- `record.vectors.get(document_id)`. -/
def vectorsGet (vs : List (String × FetchedVector)) (k : String) :
    Option FetchedVector :=
  (vs.find? (fun kv => kv.1 == k)).map (fun kv => kv.2)

/-- The single-record rendering of `read_document_tool` (tools.py lines
104-114): `Document ID:` line, a blank line, then — when the metadata dict is
truthy — a `Metadata:` header and one `key: value` line per entry. -/
def readDocFormat (documentId : String) (md : Metadata) : String :=
  let fc := ["Document ID: " ++ documentId, ""]
  let fc := if md = [] then fc
    else fc ++ ["Metadata:"] ++ md.map (fun kv => kv.1 ++ ": " ++ kv.2.pyStr)
  String.intercalate "\n" fc

/-- tools.py lines 86-117. -/
def read_document_tool (client : ReadClient) (documentId : String)
    (ns : Option String := none) : ToolResult :=
  match client.fetch_records [documentId] ns with
  | Except.error e => ⟨"text", "Error: " ++ e⟩
  | Except.ok resp =>
      match vectorsGet resp.vectors documentId with
      | none => ⟨"text", "Document " ++ documentId ++ " not found"⟩
      | some v => ⟨"text", readDocFormat documentId v.metadata⟩

/-! ## `get_vector_resource` (server.py lines 50-84) -/

/-- One element of `record["records"]` as `get_vector_resource` reads it:
a dict with an `"id"` and a `"metadata"` key. -/
structure ResourceRecord where
  id : String
  metadata : Metadata
deriving DecidableEq

/-- The fetch response as `get_vector_resource` reads it: a dict whose
`"records"` key holds a list (a missing key or empty dict behaves like an
empty list for the `not record or "records" not in record or not
record["records"]` guard). -/
structure ResourceFetchResponse where
  records : List ResourceRecord
deriving DecidableEq

/-- `json.dumps({"error": msg}, indent=2)`; JSON escaping of `msg` is not
modelled (no claim inspects these strings). -/
def jsonErrorText (msg : String) : String :=
  "\x7b\n  \"error\": \"" ++ msg ++ "\"\n\x7d"

/-- The single-record rendering of `get_vector_resource` (server.py lines
67-82): optional `Title:` line, `ID:` line, one `key: value` line per metadata
entry whose key is none of `title`/`text`/`content_type`, a blank line, then
the value under `"text"` when present.  (A non-string `"text"` value would
make Python's `join` raise; it is rendered via `pyStr` here — no claim
exercises it.) -/
def resourceFormat (vid : String) (md : Metadata) : String :=
  let out : List String :=
    match metaLookup md "title" with
    | some t => ["Title: " ++ t.pyStr]
    | none => []
  let out := out ++ ["ID: " ++ vid]
  let out := out ++
    ((md.filter (fun kv =>
        ¬ (kv.1 = "title" ∨ kv.1 = "text" ∨ kv.1 = "content_type"))).map
      (fun kv => kv.1 ++ ": " ++ kv.2.pyStr))
  let out := out ++ [""]
  let out := out ++
    (match metaLookup md "text" with
     | some t => [t.pyStr]
     | none => [])
  String.intercalate "\n" out

/-- server.py lines 54-84, parameterised over the client's `fetch_records`. -/
def get_vector_resource
    (fetch_records : List String → Except String ResourceFetchResponse)
    (vectorId : String) : String :=
  match fetch_records [vectorId] with
  | Except.error e => jsonErrorText e
  | Except.ok resp =>
      match resp.records with
      | [] => jsonErrorText ("Vector not found: " ++ vectorId)
      | vectorData :: _ => resourceFormat vectorData.id vectorData.metadata

/-! ## `process_document_tool` (tools.py lines 119-163) -/

/-- A chunk produced by `chunker.chunk_document` (the chunker itself lives in
`chunking.py`, outside the given sources; it is an abstract parameter). -/
structure Chunk where
  id : String
  content : String
  metadata : Metadata
deriving DecidableEq

/-- Embedding vectors are opaque to the orchestrator; their numeric contents
(floats in the source) never matter to a claim. -/
abbrev Embedding := List Int

/-- `PineconeRecord(id=..., embedding=..., text=..., metadata=...)`. -/
structure PineconeRecord where
  id : String
  embedding : Embedding
  text : String
  metadata : Metadata
deriving DecidableEq

/-- The abstract Pinecone client as seen by `process_document_tool`. -/
structure IngestClient where
  generate_embeddings : String → Except String Embedding
  upsert_records : List PineconeRecord → Option String → Except String Unit

/-- Observable events of a `process_document_tool` run: the
`logger.warning(f"Skipping invalid chunk: ...")` per skipped chunk, each
`generate_embeddings` call, and each `upsert_records` call. -/
inductive IngestEvent where
  | warnSkip (c : Chunk)
  | embedCall (content : String)
  | upsertCall (records : List PineconeRecord) (ns : Option String)
deriving DecidableEq

/-- `if not content or not chunk_id` (tools.py line 139). -/
def chunkInvalid (c : Chunk) : Bool :=
  c.content == "" || c.id == ""

/-- The chunk loop of tools.py lines 134-150: skip invalid chunks with a
warning, call `generate_embeddings` once per surviving chunk, and build one
`PineconeRecord` per surviving chunk; the first embedding exception aborts the
loop (it propagates to the handler). -/
def processLoop (client : IngestClient) :
    List Chunk → List IngestEvent × Except String (List PineconeRecord)
  | [] => ([], Except.ok [])
  | c :: rest =>
      if chunkInvalid c then
        let (evs, r) := processLoop client rest
        (IngestEvent.warnSkip c :: evs, r)
      else
        match client.generate_embeddings c.content with
        | Except.error e => ([IngestEvent.embedCall c.content], Except.error e)
        | Except.ok emb =>
            let (evs, r) := processLoop client rest
            (IngestEvent.embedCall c.content :: evs,
             r.map (fun rs => ⟨c.id, emb, c.content, c.metadata⟩ :: rs))

/-- tools.py lines 120-163.  The chunker
(`create_chunker(chunk_type="smart").chunk_document(document_id, text,
metadata)`) is passed as a function.  Returns the result dict and the trace of
warnings and client calls. -/
def process_document_tool (client : IngestClient)
    (chunker : String → String → Metadata → List Chunk)
    (documentId text : String) (metadata : Metadata)
    (ns : Option String := none) : ToolResult × List IngestEvent :=
  let chunks := chunker documentId text metadata
  let (evs, r) := processLoop client chunks
  match r with
  | Except.error e => (⟨"text", "Error: " ++ e⟩, evs)
  | Except.ok embeddedChunks =>
      if embeddedChunks = [] then
        (⟨"text", "Error: No embedded chunks found"⟩, evs)
      else
        let evs := evs ++ [IngestEvent.upsertCall embeddedChunks ns]
        match client.upsert_records embeddedChunks ns with
        | Except.error e => (⟨"text", "Error: " ++ e⟩, evs)
        | Except.ok _ =>
            (⟨"text",
              "Successfully processed document. The document ID is " ++
                documentId⟩, evs)

/-- Chunks that survive the validity check of tools.py line 139. -/
def survivors (chunks : List Chunk) : List Chunk :=
  chunks.filter (fun c => ! chunkInvalid c)

def isEmbedCall : IngestEvent → Bool
  | IngestEvent.embedCall _ => true
  | _ => false

def isWarn : IngestEvent → Bool
  | IngestEvent.warnSkip _ => true
  | _ => false

def countEmbeds (evs : List IngestEvent) : Nat := (evs.filter isEmbedCall).length

def countWarns (evs : List IngestEvent) : Nat := (evs.filter isWarn).length

/-- The record batches passed to `upsert_records`, in call order. -/
def upsertBatches (evs : List IngestEvent) : List (List PineconeRecord) :=
  evs.filterMap (fun e => match e with
    | IngestEvent.upsertCall rs _ => some rs
    | _ => none)

/-- Total number of records handed to the store across all upsert calls. -/
def upsertedCount (evs : List IngestEvent) : Nat :=
  ((upsertBatches evs).map List.length).sum

/-! ## `pinecone_stats_tool` and `list_documents_tool`
(tools.py lines 74-83 and 165-177).  Their success payloads are opaque
(`json.dumps` of whatever the client returned); they are modelled as
already-serialised strings. -/

structure StatsClient where
  stats : Except String String

def pinecone_stats_tool (client : StatsClient) : ToolResult :=
  match client.stats with
  | Except.error e => ⟨"text", "Error: " ++ e⟩
  | Except.ok payload => ⟨"text", payload⟩

structure ListClient where
  list_records : String → Except String String

def list_documents_tool (client : ListClient) (ns : String) : ToolResult :=
  match client.list_records ns with
  | Except.error e => ⟨"text", "Error: " ++ e⟩
  | Except.ok payload => ⟨"text", payload⟩

/-! ## Filter predicate semantics

The store that evaluates the filter is external (Pinecone).  The following
evaluation function is *modelled from the spec*: "SearchFilter: a predicate
tree over metadata fields supporting equality, set-membership, and inclusive
range comparisons, composed by logical AND of all supplied constraints";
membership "matches any record whose tag list intersects the supplied list". -/

/-- Modelled from the spec: evaluation of one `field ↦ condition` entry of the
filter dict against a record's metadata (the store's semantics — equality,
`$in` as intersection with the record's tag list, `$gte`/`$lte` as an
inclusive range; the store itself is not part of the sources). -/
def evalEntry (md : Metadata) (e : String × FilterCond) : Bool :=
  match e.2 with
  | FilterCond.eq v => decide (metaLookup md e.1 = some (MetaValue.s v))
  | FilterCond.inList vs =>
      match metaLookup md e.1 with
      | some (MetaValue.strList ws) => ws.any (fun w => vs.contains w)
      | some (MetaValue.s w) => vs.contains w
      | _ => false
  | FilterCond.range g l =>
      match metaLookup md e.1 with
      | some (MetaValue.s w) => decide (g ≤ w) && decide (w ≤ l)
      | _ => false

/-- Modelled from the spec: a record satisfies the filter iff it satisfies
every entry (logical AND). -/
def evalFilters (f : Filters) (md : Metadata) : Bool :=
  f.all (evalEntry md)

/-- The equality constraint on the category field, as the claimed semantics
states it. -/
def CatConstraint (c : String) (md : Metadata) : Prop :=
  metaLookup md "category" = some (MetaValue.s c)

/-- The set-membership constraint: the record's tag list intersects the
supplied tags (a scalar tag value is treated as a one-element list). -/
def TagConstraint (ts : List String) (md : Metadata) : Prop :=
  (∃ ws, metaLookup md "tags" = some (MetaValue.strList ws) ∧
    ∃ w ∈ ws, w ∈ ts) ∨
  (∃ w, metaLookup md "tags" = some (MetaValue.s w) ∧ w ∈ ts)

/-- The inclusive range constraint on the date field. -/
def DateConstraint (s e : String) (md : Metadata) : Prop :=
  ∃ w, metaLookup md "date" = some (MetaValue.s w) ∧ s ≤ w ∧ w ≤ e

theorem evalEntry_eq_iff (md : Metadata) (k v : String) :
    evalEntry md (k, FilterCond.eq v) = true ↔
      metaLookup md k = some (MetaValue.s v) := by
  simp [evalEntry]

theorem evalEntry_in_iff (md : Metadata) (k : String) (vs : List String) :
    evalEntry md (k, FilterCond.inList vs) = true ↔
      ((∃ ws, metaLookup md k = some (MetaValue.strList ws) ∧
          ∃ w ∈ ws, w ∈ vs) ∨
       (∃ w, metaLookup md k = some (MetaValue.s w) ∧ w ∈ vs)) := by
  cases h : metaLookup md k with
  | none => simp [evalEntry, h]
  | some v =>
      cases v <;>
        simp [evalEntry, h, List.any_eq_true, List.elem_iff]

theorem evalEntry_range_iff (md : Metadata) (k g l : String) :
    evalEntry md (k, FilterCond.range g l) = true ↔
      (∃ w, metaLookup md k = some (MetaValue.s w) ∧ g ≤ w ∧ w ≤ l) := by
  cases h : metaLookup md k with
  | none => simp [evalEntry, h]
  | some v => cases v <;> simp [evalEntry, h]

/-! ## Decomposition of `buildFilters` (proof layer) -/

def catFilter : Option String → Filters
  | some c => if c = "" then [] else [("category", FilterCond.eq c)]
  | none => []

def tagFilter : Option (List String) → Filters
  | some ts => if ts = [] then [] else [("tags", FilterCond.inList ts)]
  | none => []

def dateFilter : Option StrDict → Filters
  | some d =>
      if d ≠ [] ∧ dictContains d "start" ∧ dictContains d "end" then
        [("date", FilterCond.range (dictGet d "start") (dictGet d "end"))]
      else []
  | none => []

theorem buildFilters_eq (category : Option String)
    (tags : Option (List String)) (dateRange : Option StrDict) :
    buildFilters category tags dateRange =
      catFilter category ++ tagFilter tags ++ dateFilter dateRange := by
  rcases category with _ | c <;> rcases tags with _ | ts <;>
    rcases dateRange with _ | d <;>
    simp only [buildFilters, catFilter, tagFilter, dateFilter] <;>
    first
      | rfl
      | (split_ifs <;> simp)

theorem evalFilters_append (f g : Filters) (md : Metadata) :
    evalFilters (f ++ g) md = (evalFilters f md && evalFilters g md) := by
  simp [evalFilters]

theorem evalCatFilter (category : Option String) (md : Metadata)
    (hcat : ∀ c, category = some c → c ≠ "") :
    (evalFilters (catFilter category) md = true ↔
      ∀ c, category = some c → CatConstraint c md) := by
  rcases category with _ | c
  · simp [catFilter, evalFilters]
  · have hc := hcat c rfl
    simp [catFilter, hc, evalFilters, CatConstraint, evalEntry]

theorem evalTagFilter (tags : Option (List String)) (md : Metadata)
    (htags : ∀ ts, tags = some ts → ts ≠ []) :
    (evalFilters (tagFilter tags) md = true ↔
      ∀ ts, tags = some ts → TagConstraint ts md) := by
  rcases tags with _ | ts
  · simp [tagFilter, evalFilters]
  · have ht := htags ts rfl
    have := evalEntry_in_iff md "tags" ts
    simp only [tagFilter, if_neg ht, evalFilters, List.all_cons, List.all_nil,
      Bool.and_true, TagConstraint, Option.some.injEq, forall_eq']
    exact this

theorem evalDateFilter (dateRange : Option StrDict) (md : Metadata)
    (hdr : ∀ d, dateRange = some d →
      d ≠ [] ∧ dictContains d "start" = true ∧ dictContains d "end" = true) :
    (evalFilters (dateFilter dateRange) md = true ↔
      ∀ d, dateRange = some d →
        DateConstraint (dictGet d "start") (dictGet d "end") md) := by
  rcases dateRange with _ | d
  · simp [dateFilter, evalFilters]
  · have hd := hdr d rfl
    have := evalEntry_range_iff md "date" (dictGet d "start") (dictGet d "end")
    simp only [dateFilter, if_pos hd, evalFilters, List.all_cons, List.all_nil,
      Bool.and_true, DateConstraint, Option.some.injEq, forall_eq']
    exact this

/-- Claim C6. For every combination of supplied optional parameters (supplied
meaning truthy: a non-empty category string, a non-empty tag list, a non-empty
date dict carrying both `start` and `end`), the filter handed to the store
evaluates, on every record, to exactly the logical AND of the supplied
constraints: category equality, tag-list intersection, inclusive date range —
and each omitted parameter contributes no constraint. -/
theorem C6_filter_semantics (category : Option String)
    (tags : Option (List String)) (dateRange : Option StrDict) (md : Metadata)
    (hcat : ∀ c, category = some c → c ≠ "")
    (htags : ∀ ts, tags = some ts → ts ≠ [])
    (hdr : ∀ d, dateRange = some d →
      d ≠ [] ∧ dictContains d "start" = true ∧ dictContains d "end" = true) :
    evalFilters (buildFilters category tags dateRange) md = true ↔
      ((∀ c, category = some c → CatConstraint c md) ∧
       (∀ ts, tags = some ts → TagConstraint ts md) ∧
       (∀ d, dateRange = some d →
         DateConstraint (dictGet d "start") (dictGet d "end") md)) := by
  rw [buildFilters_eq, evalFilters_append, evalFilters_append,
    Bool.and_eq_true, Bool.and_eq_true]
  rw [and_assoc]
  exact and_congr (evalCatFilter category md hcat)
    (and_congr (evalTagFilter tags md htags) (evalDateFilter dateRange md hdr))

/-- Claim C6 (witness). A concrete record and a full parameter set: category
`news`, tags `["a","b"]` (record tags `["b","x"]` intersect), date within the
range. -/
theorem C6_filter_semantics_witness :
    evalFilters
        (buildFilters (some "news") (some ["a", "b"])
          (some [("start", "2020-01-01"), ("end", "2020-12-31")]))
        [("category", MetaValue.s "news"),
         ("tags", MetaValue.strList ["b", "x"]),
         ("date", MetaValue.s "2020-06-15")] = true ↔
      ((∀ c, (some "news" : Option String) = some c →
          CatConstraint c
            [("category", MetaValue.s "news"),
             ("tags", MetaValue.strList ["b", "x"]),
             ("date", MetaValue.s "2020-06-15")]) ∧
       (∀ ts, (some ["a", "b"] : Option (List String)) = some ts →
          TagConstraint ts
            [("category", MetaValue.s "news"),
             ("tags", MetaValue.strList ["b", "x"]),
             ("date", MetaValue.s "2020-06-15")]) ∧
       (∀ d, (some [("start", "2020-01-01"), ("end", "2020-12-31")] :
            Option StrDict) = some d →
          DateConstraint (dictGet d "start") (dictGet d "end")
            [("category", MetaValue.s "news"),
             ("tags", MetaValue.strList ["b", "x"]),
             ("date", MetaValue.s "2020-06-15")])) :=
  C6_filter_semantics (some "news") (some ["a", "b"])
    (some [("start", "2020-01-01"), ("end", "2020-12-31")])
    [("category", MetaValue.s "news"),
     ("tags", MetaValue.strList ["b", "x"]),
     ("date", MetaValue.s "2020-06-15")]
    (by intro c hc; cases hc; decide)
    (by intro ts hts; cases hts; decide)
    (by intro d hd; cases hd; decide)

/-! ## Concrete collaborators used by counterexamples and witnesses -/

/-- A store client whose query succeeds with zero matches. -/
def emptyStoreClient : SearchClient :=
  ⟨fun _ _ _ _ _ => Except.ok ⟨[]⟩⟩

/-! ## Claims -/

/-- Claim C1 (counterexample). With the empty query string, the tool performs
no validation: the store's `search_records` is invoked with the empty query,
and the call returns a normal success text, not a validation error — refuting
the claim that the store is never invoked and a validation error is
reported. -/
theorem C1_counterexample :
    (semantic_search_tool emptyStoreClient "" 10 none none none none).2 =
      [SearchEvent.searchCall "" 10 [] true none] ∧
    (semantic_search_tool emptyStoreClient "" 10 none none none none).1 =
      ⟨"text", "Retrieved Contexts:\n\n"⟩ := by
  exact ⟨rfl, rfl⟩

/-- Claim C1 (amended). `semantic_search_tool` applies no empty-query
validation: for every client and every parameter combination, the call with
the empty query invokes the store's `search_records` exactly once, passing the
empty query through unchanged. -/
theorem C1_store_called_on_empty_query (client : SearchClient) (topK : Int)
    (ns category : Option String) (tags : Option (List String))
    (dateRange : Option StrDict) :
    (semantic_search_tool client "" topK ns category tags dateRange).2 =
      [SearchEvent.searchCall "" topK (buildFilters category tags dateRange)
        true ns] := by
  cases h : client.search_records "" topK (buildFilters category tags dateRange)
      true ns <;> simp [semantic_search_tool, h]

/-! ## Claim C3: read-document formatting versus the fetch-by-id resource -/

theorem intercalateGo_append (s : String) :
    ∀ (as : List String) (acc : String),
      ∃ t, String.intercalate.go acc s as = acc ++ t := by
  intro as
  induction as with
  | nil => intro acc; exact ⟨"", (String.append_empty acc).symm⟩
  | cons a as ih =>
      intro acc
      obtain ⟨t, ht⟩ := ih (acc ++ s ++ a)
      refine ⟨s ++ a ++ t, ?_⟩
      rw [String.intercalate.go, ht, String.append_assoc,
        String.append_assoc, String.append_assoc]

theorem intercalate_cons (s a : String) (rest : List String) :
    ∃ t, String.intercalate s (a :: rest) = a ++ t := by
  rw [String.intercalate]
  exact intercalateGo_append s rest a

theorem readDocFormat_head (documentId : String) (md : Metadata) :
    (readDocFormat documentId md).data.head? = some 'D' := by
  simp only [readDocFormat]
  by_cases hmd : md = []
  · rw [if_pos hmd]
    obtain ⟨t, ht⟩ :=
      intercalate_cons "\n" ("Document ID: " ++ documentId) [""]
    rw [ht]
    rfl
  · rw [if_neg hmd]
    obtain ⟨t, ht⟩ :=
      intercalate_cons "\n" ("Document ID: " ++ documentId)
        ([""] ++ ["Metadata:"] ++ md.map (fun kv => kv.1 ++ ": " ++ kv.2.pyStr))
    simp only [List.cons_append, List.nil_append, List.append_assoc] at ht ⊢
    rw [ht]
    rfl

theorem resourceFormat_head (vid : String) (md : Metadata) :
    (resourceFormat vid md).data.head? = some 'T' ∨
    (resourceFormat vid md).data.head? = some 'I' := by
  simp only [resourceFormat]
  cases h : metaLookup md "title" with
  | some t =>
      left
      obtain ⟨u, hu⟩ := intercalate_cons "\n" ("Title: " ++ t.pyStr)
        (["ID: " ++ vid] ++
          ((md.filter (fun kv =>
              ¬ (kv.1 = "title" ∨ kv.1 = "text" ∨ kv.1 = "content_type"))).map
            (fun kv => kv.1 ++ ": " ++ kv.2.pyStr)) ++ [""] ++
          (match metaLookup md "text" with
           | some t => [t.pyStr]
           | none => []))
      simp only [List.nil_append, List.cons_append, List.append_assoc] at hu ⊢
      rw [hu]
      rfl
  | none =>
      right
      obtain ⟨u, hu⟩ := intercalate_cons "\n" ("ID: " ++ vid)
        (((md.filter (fun kv =>
              ¬ (kv.1 = "title" ∨ kv.1 = "text" ∨ kv.1 = "content_type"))).map
            (fun kv => kv.1 ++ ": " ++ kv.2.pyStr)) ++ [""] ++
          (match metaLookup md "text" with
           | some t => [t.pyStr]
           | none => []))
      simp only [List.nil_append, List.cons_append, List.append_assoc] at hu ⊢
      rw [hu]
      rfl

/-- Claim C3 (amended). The two renderings are never equal: for every record
identifier and metadata, `read_document_tool`'s text begins with
`Document ID: `, while the fetch-by-id resource's text begins with `Title: `
(title present) or `ID: ` (title absent). -/
theorem C3_formats_differ (vid documentId : String) (md : Metadata) :
    readDocFormat documentId md ≠ resourceFormat vid md := by
  intro h
  have hd := readDocFormat_head documentId md
  rw [h] at hd
  rcases resourceFormat_head vid md with hr | hr <;> rw [hr] at hd <;>
    exact absurd (Option.some.inj hd) (by decide)

/-- The fetch response `read_document_tool` sees for a store holding one
record `doc1` with a title and a text. -/
def demoReadClient : ReadClient :=
  ⟨fun _ _ => Except.ok
    ⟨[("doc1", ⟨[("title", MetaValue.s "T"), ("text", MetaValue.s "hello")]⟩)]⟩⟩

/-- The fetch response `get_vector_resource` sees for the same stored
record. -/
def demoResourceFetch : List String → Except String ResourceFetchResponse :=
  fun _ => Except.ok
    ⟨[⟨"doc1", [("title", MetaValue.s "T"), ("text", MetaValue.s "hello")]⟩]⟩

/-- Claim C3 (counterexample). For the record `doc1` with metadata
`title: T`, `text: hello`, the two endpoints render different texts — the
resource follows the title/id/blank-line/text layout, while `read-document`
renders a `Document ID:` header and a `Metadata:` block (and never the stored
text). -/
theorem C3_counterexample :
    read_document_tool demoReadClient "doc1" none =
      ⟨"text", "Document ID: doc1\n\nMetadata:\ntitle: T\ntext: hello"⟩ ∧
    get_vector_resource demoResourceFetch "doc1" =
      "Title: T\nID: doc1\n\nhello" ∧
    (read_document_tool demoReadClient "doc1" none).text ≠
      get_vector_resource demoResourceFetch "doc1" := by
  refine ⟨by decide, by decide, by decide⟩

/-- Claim C5. A date range holding only one of the `start`/`end` keys yields
exactly the same filter as no date range at all, and the whole tool call
behaves identically (same result, same store call); no error is raised. -/
theorem C5_partial_range_ignored (client : SearchClient) (query : String)
    (topK : Int) (ns category : Option String) (tags : Option (List String))
    (d : StrDict) (h : dictContains d "start" ≠ dictContains d "end") :
    buildFilters category tags (some d) = buildFilters category tags none ∧
    semantic_search_tool client query topK ns category tags (some d) =
      semantic_search_tool client query topK ns category tags none := by
  have hcond : ¬ (d ≠ [] ∧ dictContains d "start" = true ∧
      dictContains d "end" = true) := by
    rintro ⟨-, hs, he⟩
    exact h (hs.trans he.symm)
  have hf : buildFilters category tags (some d) =
      buildFilters category tags none := by
    simp only [buildFilters, if_neg hcond]
  refine ⟨hf, ?_⟩
  unfold semantic_search_tool
  rw [hf]

/-- Claim C5 (witness). A range with only a `start` key, concretely. -/
theorem C5_partial_range_ignored_witness :
    buildFilters none none (some [("start", "2020-01-01")]) =
      buildFilters none none none ∧
    semantic_search_tool emptyStoreClient "q" 10 none none none
        (some [("start", "2020-01-01")]) =
      semantic_search_tool emptyStoreClient "q" 10 none none none none :=
  C5_partial_range_ignored emptyStoreClient "q" 10 none none none
    [("start", "2020-01-01")] (by decide)

/-- Claim C10. An empty category string and an empty tag list are treated
exactly like omitted parameters: the whole tool call (result and store call,
hence the filter passed to the store) is identical to the call without the
parameter. -/
theorem C10_empty_as_omitted (client : SearchClient) (query : String)
    (topK : Int) (ns category : Option String) (tags : Option (List String))
    (dateRange : Option StrDict) :
    semantic_search_tool client query topK ns (some "") tags dateRange =
      semantic_search_tool client query topK ns none tags dateRange ∧
    semantic_search_tool client query topK ns category (some []) dateRange =
      semantic_search_tool client query topK ns category none dateRange := by
  have h1 : buildFilters (some "") tags dateRange =
      buildFilters none tags dateRange := by
    simp [buildFilters]
  have h2 : buildFilters category (some []) dateRange =
      buildFilters category none dateRange := by
    simp [buildFilters]
  constructor
  · unfold semantic_search_tool; rw [h1]
  · unfold semantic_search_tool; rw [h2]

/-! ## Structure of the ingestion loop (proof layer) -/

theorem processLoop_no_upsert (client : IngestClient) :
    ∀ chunks : List Chunk, upsertBatches (processLoop client chunks).1 = [] := by
  intro chunks
  induction chunks with
  | nil => rfl
  | cons c rest ih =>
      rcases hpl : processLoop client rest with ⟨evs, r⟩
      rw [hpl] at ih
      by_cases hc : chunkInvalid c = true
      · simp [processLoop, hc, hpl, upsertBatches, List.filterMap_cons] at ih ⊢
        exact ih
      · cases hge : client.generate_embeddings c.content with
        | error e => simp [processLoop, hc, hge, upsertBatches]
        | ok emb =>
            simp [processLoop, hc, hge, hpl, upsertBatches,
              List.filterMap_cons] at ih ⊢
            exact ih

theorem processLoop_ok (client : IngestClient) :
    ∀ chunks : List Chunk,
      (∀ c ∈ survivors chunks,
        (client.generate_embeddings c.content).isOk = true) →
      ∃ evs rs, processLoop client chunks = (evs, Except.ok rs) ∧
        countEmbeds evs = (survivors chunks).length ∧
        countWarns evs = (chunks.filter chunkInvalid).length ∧
        rs.map PineconeRecord.id = (survivors chunks).map Chunk.id := by
  intro chunks
  induction chunks with
  | nil => intro _; exact ⟨[], [], rfl, rfl, rfl, rfl⟩
  | cons c rest ih =>
      intro h
      by_cases hc : chunkInvalid c = true
      · have hsurv : survivors (c :: rest) = survivors rest := by
          simp [survivors, hc]
        obtain ⟨evs, rs, hpl, h1, h2, h3⟩ := ih (by rw [hsurv] at h; exact h)
        refine ⟨IngestEvent.warnSkip c :: evs, rs, ?_, ?_, ?_, ?_⟩
        · simp [processLoop, hc, hpl]
        · simpa [countEmbeds, isEmbedCall, hsurv] using h1
        · simpa [countWarns, isWarn, List.filter_cons, hc] using h2
        · rw [hsurv]; exact h3
      · have hcb : chunkInvalid c = false := by
          simpa using hc
        have hsurv : survivors (c :: rest) = c :: survivors rest := by
          simp [survivors, hcb]
        have hcok : (client.generate_embeddings c.content).isOk = true := by
          refine h c ?_
          rw [hsurv]; exact List.mem_cons_self c _
        cases hge : client.generate_embeddings c.content with
        | error e => rw [hge] at hcok; simp [Except.isOk, Except.toBool] at hcok
        | ok emb =>
            obtain ⟨evs, rs, hpl, h1, h2, h3⟩ := ih (by
              intro c' hc'
              refine h c' ?_
              rw [hsurv]; exact List.mem_cons_of_mem c hc')
            refine ⟨IngestEvent.embedCall c.content :: evs,
              ⟨c.id, emb, c.content, c.metadata⟩ :: rs, ?_, ?_, ?_, ?_⟩
            · simp [processLoop, hcb, hge, hpl, Except.map]
            · simpa [countEmbeds, isEmbedCall, hsurv] using h1
            · simpa [countWarns, isWarn, List.filter_cons, hcb] using h2
            · simp only [hsurv, List.map_cons]
              exact congrArg (List.cons c.id) h3

theorem processLoop_error (client : IngestClient) :
    ∀ chunks : List Chunk,
      (∃ c ∈ survivors chunks,
        (client.generate_embeddings c.content).isOk = false) →
      ∃ evs e, processLoop client chunks = (evs, Except.error e) := by
  intro chunks
  induction chunks with
  | nil => rintro ⟨c, hc, -⟩; exact absurd hc (List.not_mem_nil c)
  | cons c rest ih =>
      rintro ⟨c', hmem, hbad⟩
      by_cases hc : chunkInvalid c = true
      · have hsurv : survivors (c :: rest) = survivors rest := by
          simp [survivors, hc]
        rw [hsurv] at hmem
        obtain ⟨evs, e, hpl⟩ := ih ⟨c', hmem, hbad⟩
        exact ⟨IngestEvent.warnSkip c :: evs, e, by simp [processLoop, hc, hpl]⟩
      · have hcb : chunkInvalid c = false := by simpa using hc
        have hsurv : survivors (c :: rest) = c :: survivors rest := by
          simp [survivors, hcb]
        cases hge : client.generate_embeddings c.content with
        | error e =>
            exact ⟨[IngestEvent.embedCall c.content], e, by
              simp [processLoop, hcb, hge]⟩
        | ok emb =>
            rw [hsurv] at hmem
            rcases List.mem_cons.mp hmem with heq | hmem'

            · subst heq
              rw [hge] at hbad
              simp [Except.isOk, Except.toBool] at hbad
            · obtain ⟨evs, e, hpl⟩ := ih ⟨c', hmem', hbad⟩
              exact ⟨IngestEvent.embedCall c.content :: evs, e, by
                simp [processLoop, hcb, hge, hpl, Except.map]⟩

theorem countEmbeds_append (a b : List IngestEvent) :
    countEmbeds (a ++ b) = countEmbeds a + countEmbeds b := by
  simp [countEmbeds, List.filter_append]

theorem countWarns_append (a b : List IngestEvent) :
    countWarns (a ++ b) = countWarns a + countWarns b := by
  simp [countWarns, List.filter_append]

theorem upsertBatches_append (a b : List IngestEvent) :
    upsertBatches (a ++ b) = upsertBatches a ++ upsertBatches b := by
  simp [upsertBatches, List.filterMap_append]

theorem countEmbeds_upsertCall (rs : List PineconeRecord) (ns : Option String) :
    countEmbeds [IngestEvent.upsertCall rs ns] = 0 := rfl

theorem countWarns_upsertCall (rs : List PineconeRecord) (ns : Option String) :
    countWarns [IngestEvent.upsertCall rs ns] = 0 := rfl

theorem upsertBatches_upsertCall (rs : List PineconeRecord)
    (ns : Option String) :
    upsertBatches [IngestEvent.upsertCall rs ns] = [rs] := rfl

theorem survivors_length (chunks : List Chunk) :
    (survivors chunks).length =
      chunks.length - (chunks.filter chunkInvalid).length := by
  induction chunks with
  | nil => rfl
  | cons c rest ih =>
      have hle : (rest.filter chunkInvalid).length ≤ rest.length :=
        List.length_filter_le _ _
      by_cases hc : chunkInvalid c = true
      · have h1 : survivors (c :: rest) = survivors rest := by
          simp [survivors, hc]
        have h2 : (c :: rest).filter chunkInvalid =
            c :: rest.filter chunkInvalid := by
          simp [List.filter_cons, hc]
        rw [h1, h2, ih]
        simp only [List.length_cons]
        omega
      · have hcb : chunkInvalid c = false := by simpa using hc
        have h1 : survivors (c :: rest) = c :: survivors rest := by
          simp [survivors, hcb]
        have h2 : (c :: rest).filter chunkInvalid =
            rest.filter chunkInvalid := by
          simp [List.filter_cons, hcb]
        rw [h1, h2]
        simp only [List.length_cons, ih]
        omega

/-- Claim C2 (amended). In every ingestion run: (1) when every embedding call
on surviving chunks succeeds and at least one chunk survives, the embedding
client is called exactly once per surviving chunk and `upsert_records` is
called exactly once, with the full batch (one record per surviving chunk, in
order); (2) when some surviving chunk's embedding fails, the run returns an
error result and `upsert_records` is never invoked; (3) when no chunk
survives, the run returns an error result and `upsert_records` is never
invoked. -/
theorem C2_batched_upsert (client : IngestClient)
    (chunker : String → String → Metadata → List Chunk)
    (documentId text : String) (md : Metadata) (ns : Option String) :
    ((∀ c ∈ survivors (chunker documentId text md),
        (client.generate_embeddings c.content).isOk = true) →
      survivors (chunker documentId text md) ≠ [] →
      countEmbeds
          (process_document_tool client chunker documentId text md ns).2 =
        (survivors (chunker documentId text md)).length ∧
      ∃ rs, upsertBatches
          (process_document_tool client chunker documentId text md ns).2 =
            [rs] ∧
        rs.map PineconeRecord.id =
          (survivors (chunker documentId text md)).map Chunk.id) ∧
    ((∃ c ∈ survivors (chunker documentId text md),
        (client.generate_embeddings c.content).isOk = false) →
      (∃ e, (process_document_tool client chunker documentId text md ns).1 =
        ⟨"text", "Error: " ++ e⟩) ∧
      upsertBatches
        (process_document_tool client chunker documentId text md ns).2 = []) ∧
    (survivors (chunker documentId text md) = [] →
      (process_document_tool client chunker documentId text md ns).1 =
        ⟨"text", "Error: No embedded chunks found"⟩ ∧
      upsertBatches
        (process_document_tool client chunker documentId text md ns).2 =
          []) := by
  refine ⟨?_, ?_, ?_⟩
  · intro hok hne
    obtain ⟨evs, rs, hpl, h1, h2, h3⟩ :=
      processLoop_ok client (chunker documentId text md) hok
    have hnoup : upsertBatches evs = [] := by
      have h := processLoop_no_upsert client (chunker documentId text md)
      rw [hpl] at h
      exact h
    have hrs : ¬ rs = [] := by
      intro hnil
      rw [hnil] at h3
      exact hne (List.map_eq_nil_iff.mp h3.symm)
    have htr : (process_document_tool client chunker documentId text md ns).2 =
        evs ++ [IngestEvent.upsertCall rs ns] := by
      cases hup : client.upsert_records rs ns <;>
        simp [process_document_tool, hpl, hrs, hup]
    refine ⟨?_, rs, ?_, h3⟩
    · rw [htr, countEmbeds_append, h1, countEmbeds_upsertCall, Nat.add_zero]
    · rw [htr, upsertBatches_append, hnoup, upsertBatches_upsertCall,
        List.nil_append]
  · intro hbad
    obtain ⟨evs, e, hpl⟩ :=
      processLoop_error client (chunker documentId text md) hbad
    have hnoup : upsertBatches evs = [] := by
      have h := processLoop_no_upsert client (chunker documentId text md)
      rw [hpl] at h
      exact h
    refine ⟨⟨e, ?_⟩, ?_⟩ <;> simp [process_document_tool, hpl, hnoup]
  · intro hsurv
    obtain ⟨evs, rs, hpl, h1, h2, h3⟩ :=
      processLoop_ok client (chunker documentId text md)
        (by rw [hsurv]; intro c hc; exact absurd hc (List.not_mem_nil c))
    have hnoup : upsertBatches evs = [] := by
      have h := processLoop_no_upsert client (chunker documentId text md)
      rw [hpl] at h
      exact h
    have hrs : rs = [] := by
      rw [hsurv] at h3
      exact List.map_eq_nil_iff.mp h3
    constructor <;> simp [process_document_tool, hpl, hrs, hnoup]

/-! ## Concrete chunkers and ingestion clients -/

/-- An ingestion client whose embedding and upsert calls always succeed. -/
def okIngestClient : IngestClient :=
  ⟨fun _ => Except.ok [], fun _ _ => Except.ok ()⟩

/-- A chunker producing a single valid chunk `{document_id}-0`. -/
def chunkerOne : String → String → Metadata → List Chunk :=
  fun documentId text md => [⟨documentId ++ "-0", text, md⟩]

/-- A chunker producing two valid chunks. -/
def chunkerTwo : String → String → Metadata → List Chunk :=
  fun documentId text md =>
    [⟨documentId ++ "-0", text, md⟩, ⟨documentId ++ "-1", text, md⟩]

/-- A chunker whose only chunk has empty content (so it is skipped). -/
def skipChunker : String → String → Metadata → List Chunk :=
  fun documentId _ md => [⟨documentId ++ "-0", "", md⟩]

/-- A chunker with one invalid (empty-content) and one valid chunk. -/
def chunkerMixed : String → String → Metadata → List Chunk :=
  fun documentId text md =>
    [⟨documentId ++ "-0", "", md⟩, ⟨documentId ++ "-1", text, md⟩]

/-- A chunker yielding no chunks. -/
def emptyChunker : String → String → Metadata → List Chunk :=
  fun _ _ _ => []

/-- Claim C2 (counterexample). A run whose only chunk is skipped: every
embedding call made on surviving chunks succeeded (there were none), yet
`upsert_records` is never called — refuting "when all embeddings succeed,
upsert is called exactly once with the full batch". -/
theorem C2_counterexample :
    (∀ c ∈ survivors (skipChunker "doc1" "hi" []),
      (okIngestClient.generate_embeddings c.content).isOk = true) ∧
    (process_document_tool okIngestClient skipChunker "doc1" "hi" [] none).2 =
      [IngestEvent.warnSkip ⟨"doc1-0", "", []⟩] ∧
    upsertBatches
      (process_document_tool okIngestClient skipChunker "doc1" "hi" []
        none).2 = [] := by
  refine ⟨by decide, by decide, by decide⟩

/-- Claim C2 (witness, success case): two valid chunks, two embedding calls,
one upsert of the full two-record batch. -/
theorem C2_batched_upsert_witness :
    countEmbeds
        (process_document_tool okIngestClient chunkerTwo "doc1" "hi" []
          none).2 =
      (survivors (chunkerTwo "doc1" "hi" [])).length ∧
    ∃ rs, upsertBatches
        (process_document_tool okIngestClient chunkerTwo "doc1" "hi" []
          none).2 = [rs] ∧
      rs.map PineconeRecord.id =
        (survivors (chunkerTwo "doc1" "hi" [])).map Chunk.id :=
  (C2_batched_upsert okIngestClient chunkerTwo "doc1" "hi" [] none).1
    (by decide) (by decide)

/-- Claim C4 (amended). Every successful ingestion returns exactly the text
`Successfully processed document. The document ID is {document_id}`: it states
the document id, and — being independent of the records — not the number of
records written. -/
theorem C4_success_message (client : IngestClient)
    (chunker : String → String → Metadata → List Chunk)
    (documentId text : String) (md : Metadata) (ns : Option String)
    (evs : List IngestEvent) (rs : List PineconeRecord)
    (hloop : processLoop client (chunker documentId text md) =
      (evs, Except.ok rs))
    (hne : rs ≠ []) (hup : client.upsert_records rs ns = Except.ok ()) :
    (process_document_tool client chunker documentId text md ns).1 =
      ⟨"text",
        "Successfully processed document. The document ID is " ++
          documentId⟩ := by
  simp [process_document_tool, hloop, hne, hup]

/-- Claim C4 (witness): a successful one-chunk run, concretely. -/
theorem C4_success_message_witness :
    (process_document_tool okIngestClient chunkerOne "doc1" "hi" [] none).1 =
      ⟨"text", "Successfully processed document. The document ID is " ++
        "doc1"⟩ :=
  C4_success_message okIngestClient chunkerOne "doc1" "hi" [] none
    [IngestEvent.embedCall "hi"] [⟨"doc1-0", [], "hi", []⟩]
    rfl (by decide) rfl

/-- Claim C4 (counterexample). Two successful ingestions of the same document
id that write different numbers of records (1 and 2) return the identical
success text — so the success report cannot state the number of records
written. -/
theorem C4_counterexample :
    (process_document_tool okIngestClient chunkerOne "doc1" "hi" [] none).1 =
      (process_document_tool okIngestClient chunkerTwo "doc1" "hi" []
        none).1 ∧
    upsertedCount
      (process_document_tool okIngestClient chunkerOne "doc1" "hi" []
        none).2 = 1 ∧
    upsertedCount
      (process_document_tool okIngestClient chunkerTwo "doc1" "hi" []
        none).2 = 2 := by
  refine ⟨by decide, by decide, by decide⟩

/-- Claim C7. When the chunker output contains a chunk with empty content or
empty id and every embedding call on surviving chunks succeeds, each invalid
chunk is skipped with one recorded warning (not a failure), every surviving
chunk is still embedded, and the number of records handed to upsert equals the
number of chunks produced minus the number skipped. -/
theorem C7_skip_invalid (client : IngestClient)
    (chunker : String → String → Metadata → List Chunk)
    (documentId text : String) (md : Metadata) (ns : Option String)
    (hinv : ∃ c ∈ chunker documentId text md, chunkInvalid c = true)
    (hok : ∀ c ∈ survivors (chunker documentId text md),
      (client.generate_embeddings c.content).isOk = true) :
    countWarns (process_document_tool client chunker documentId text md ns).2 =
      ((chunker documentId text md).filter chunkInvalid).length ∧
    countEmbeds
        (process_document_tool client chunker documentId text md ns).2 =
      (survivors (chunker documentId text md)).length ∧
    upsertedCount
        (process_document_tool client chunker documentId text md ns).2 =
      (chunker documentId text md).length -
        ((chunker documentId text md).filter chunkInvalid).length := by
  obtain ⟨evs, rs, hpl, h1, h2, h3⟩ :=
    processLoop_ok client (chunker documentId text md) hok
  have hnoup : upsertBatches evs = [] := by
    have h := processLoop_no_upsert client (chunker documentId text md)
    rw [hpl] at h
    exact h
  have hlen : rs.length = (survivors (chunker documentId text md)).length := by
    have := congrArg List.length h3
    simpa using this
  rw [← survivors_length]
  by_cases hrs : rs = []
  · have hsurv : (survivors (chunker documentId text md)).length = 0 := by
      rw [← hlen, hrs]
      rfl
    have htr : (process_document_tool client chunker documentId text md
        ns).2 = evs := by
      simp [process_document_tool, hpl, hrs]
    refine ⟨?_, ?_, ?_⟩
    · rw [htr, h2]
    · rw [htr, h1]
    · rw [htr, hsurv]
      simp [upsertedCount, hnoup]
  · have htr : (process_document_tool client chunker documentId text md
        ns).2 = evs ++ [IngestEvent.upsertCall rs ns] := by
      cases hup : client.upsert_records rs ns <;>
        simp [process_document_tool, hpl, hrs, hup]
    refine ⟨?_, ?_, ?_⟩
    · rw [htr, countWarns_append, h2, countWarns_upsertCall, Nat.add_zero]
    · rw [htr, countEmbeds_append, h1, countEmbeds_upsertCall, Nat.add_zero]
    · rw [htr, ← hlen]
      simp [upsertedCount, upsertBatches_append, hnoup,
        upsertBatches_upsertCall]

/-- Claim C7 (witness): one invalid chunk and one valid chunk; one warning,
one embedding call, one record upserted (2 produced − 1 skipped). -/
theorem C7_skip_invalid_witness :
    countWarns
        (process_document_tool okIngestClient chunkerMixed "doc1" "hi" []
          none).2 =
      ((chunkerMixed "doc1" "hi" []).filter chunkInvalid).length ∧
    countEmbeds
        (process_document_tool okIngestClient chunkerMixed "doc1" "hi" []
          none).2 =
      (survivors (chunkerMixed "doc1" "hi" [])).length ∧
    upsertedCount
        (process_document_tool okIngestClient chunkerMixed "doc1" "hi" []
          none).2 =
      (chunkerMixed "doc1" "hi" []).length -
        ((chunkerMixed "doc1" "hi" []).filter chunkInvalid).length :=
  C7_skip_invalid okIngestClient chunkerMixed "doc1" "hi" [] none
    (by decide) (by decide)

/-- Claim C8. When the chunker yields zero chunks the operation returns the
code's empty-document error (`No embedded chunks found`), makes no external
call at all, and in particular never invokes upsert. -/
theorem C8_zero_chunks (client : IngestClient)
    (chunker : String → String → Metadata → List Chunk)
    (documentId text : String) (md : Metadata) (ns : Option String)
    (h : chunker documentId text md = []) :
    (process_document_tool client chunker documentId text md ns).1 =
      ⟨"text", "Error: No embedded chunks found"⟩ ∧
    (process_document_tool client chunker documentId text md ns).2 = [] ∧
    upsertBatches
      (process_document_tool client chunker documentId text md ns).2 = [] := by
  refine ⟨?_, ?_, ?_⟩ <;> simp [process_document_tool, h, processLoop,
    upsertBatches]

/-- Claim C8 (witness): the empty chunker, concretely. -/
theorem C8_zero_chunks_witness :
    (process_document_tool okIngestClient emptyChunker "doc1" "hi" []
        none).1 = ⟨"text", "Error: No embedded chunks found"⟩ ∧
    (process_document_tool okIngestClient emptyChunker "doc1" "hi" []
        none).2 = [] ∧
    upsertBatches
      (process_document_tool okIngestClient emptyChunker "doc1" "hi" []
        none).2 = [] :=
  C8_zero_chunks okIngestClient emptyChunker "doc1" "hi" [] none rfl

/-- Claim C9. Every tool converts a failing client call into a structured
`{"type": "text", "text": "Error: ..."}` result at the operation boundary (in
the embedding the tools are total functions into `ToolResult`, so no exception
crosses the boundary): the store query of `semantic-search`, the stats call,
the fetch of `read-document`, a failing embedding during `process-document`,
a failing upsert during `process-document`, and the listing call of
`list-documents`. -/
theorem C9_errors_caught :
    (∀ (client : SearchClient) (q : String) (k : Int)
        (ns category : Option String) (tags : Option (List String))
        (dr : Option StrDict) (e : String),
      client.search_records q k (buildFilters category tags dr) true ns =
        Except.error e →
      (semantic_search_tool client q k ns category tags dr).1 =
        ⟨"text", "Error: " ++ e⟩) ∧
    (∀ (client : StatsClient) (e : String),
      client.stats = Except.error e →
      pinecone_stats_tool client = ⟨"text", "Error: " ++ e⟩) ∧
    (∀ (client : ReadClient) (documentId : String) (ns : Option String)
        (e : String),
      client.fetch_records [documentId] ns = Except.error e →
      read_document_tool client documentId ns = ⟨"text", "Error: " ++ e⟩) ∧
    (∀ (client : IngestClient)
        (chunker : String → String → Metadata → List Chunk)
        (documentId text : String) (md : Metadata) (ns : Option String)
        (evs : List IngestEvent) (e : String),
      processLoop client (chunker documentId text md) =
        (evs, Except.error e) →
      (process_document_tool client chunker documentId text md ns).1 =
        ⟨"text", "Error: " ++ e⟩) ∧
    (∀ (client : IngestClient)
        (chunker : String → String → Metadata → List Chunk)
        (documentId text : String) (md : Metadata) (ns : Option String)
        (evs : List IngestEvent) (rs : List PineconeRecord) (e : String),
      processLoop client (chunker documentId text md) =
        (evs, Except.ok rs) →
      rs ≠ [] →
      client.upsert_records rs ns = Except.error e →
      (process_document_tool client chunker documentId text md ns).1 =
        ⟨"text", "Error: " ++ e⟩) ∧
    (∀ (client : ListClient) (ns e : String),
      client.list_records ns = Except.error e →
      list_documents_tool client ns = ⟨"text", "Error: " ++ e⟩) := by
  refine ⟨?_, ?_, ?_, ?_, ?_, ?_⟩
  · intro client q k ns category tags dr e h
    simp [semantic_search_tool, h]
  · intro client e h
    simp [pinecone_stats_tool, h]
  · intro client documentId ns e h
    simp [read_document_tool, h]
  · intro client chunker documentId text md ns evs e h
    simp [process_document_tool, h]
  · intro client chunker documentId text md ns evs rs e h hne hup
    simp [process_document_tool, h, hne, hup]
  · intro client ns e h
    simp [list_documents_tool, h]

/-- A search client whose store query always raises. -/
def failSearchClient : SearchClient :=
  ⟨fun _ _ _ _ _ => Except.error "boom"⟩

/-- A stats client whose stats call always raises. -/
def failStatsClient : StatsClient := ⟨Except.error "boom"⟩

/-- A read client whose fetch always raises. -/
def failReadClient : ReadClient := ⟨fun _ _ => Except.error "boom"⟩

/-- An ingestion client whose embedding call always raises. -/
def failEmbedClient : IngestClient :=
  ⟨fun _ => Except.error "boom", fun _ _ => Except.ok ()⟩

/-- An ingestion client whose upsert always raises. -/
def failUpsertClient : IngestClient :=
  ⟨fun _ => Except.ok [], fun _ _ => Except.error "boom"⟩

/-- A list client whose listing call always raises. -/
def failListClient : ListClient := ⟨fun _ => Except.error "boom"⟩

/-- Claim C9 (witness): each of the six failure scenarios at a concrete
input yields the structured error text. -/
theorem C9_errors_caught_witness :
    (semantic_search_tool failSearchClient "q" 10 none none none none).1 =
      ⟨"text", "Error: " ++ "boom"⟩ ∧
    pinecone_stats_tool failStatsClient = ⟨"text", "Error: " ++ "boom"⟩ ∧
    read_document_tool failReadClient "doc1" none =
      ⟨"text", "Error: " ++ "boom"⟩ ∧
    (process_document_tool failEmbedClient chunkerOne "doc1" "hi" []
        none).1 = ⟨"text", "Error: " ++ "boom"⟩ ∧
    (process_document_tool failUpsertClient chunkerOne "doc1" "hi" []
        none).1 = ⟨"text", "Error: " ++ "boom"⟩ ∧
    list_documents_tool failListClient "ns1" =
      ⟨"text", "Error: " ++ "boom"⟩ :=
  ⟨C9_errors_caught.1 failSearchClient "q" 10 none none none none "boom" rfl,
   C9_errors_caught.2.1 failStatsClient "boom" rfl,
   C9_errors_caught.2.2.1 failReadClient "doc1" none "boom" rfl,
   C9_errors_caught.2.2.2.1 failEmbedClient chunkerOne "doc1" "hi" [] none
      [IngestEvent.embedCall "hi"] "boom" rfl,
   C9_errors_caught.2.2.2.2.1 failUpsertClient chunkerOne "doc1" "hi" [] none
      [IngestEvent.embedCall "hi"] [⟨"doc1-0", [], "hi", []⟩] "boom"
      rfl (by decide) rfl,
   C9_errors_caught.2.2.2.2.2 failListClient "ns1" "boom" rfl⟩

end MCPPinecone
